import Mathlib

/-!
Verification of the JSON codec layer in api/util.go: the U64, HexBytes and
GUID (de)serializers. Go byte slices and strings are embedded as List Char,
byte sequences as List Nat with every element below 256, and a pointer
receiver method as an explicit state transformer returning both the error
outcome and the final receiver state. The trusted collaborators that live
outside the verified file (internal/util and internal/types, plus the Go
standard library primitives encoding/json, encoding/hex and encoding/base64)
are modelled from their documented contracts, as noted on each definition.
-/

set_option maxRecDepth 8192

namespace AptosApiUtil

/-- Error taxonomy of the decode paths: a malformed JSON string token, a
decimal literal that is not a valid unsigned 64-bit number, or a string that
is neither valid hex nor valid standard base64. -/
inductive DecodeErr where
  | malformedString
  | malformedNumber
  | malformedBytes
deriving DecidableEq

/-- Outcome of calling a Go method: normal return with nil error, normal
return with a non-nil error, or a runtime panic (for example an
out-of-range slice index). -/
inductive Outcome where
  | ok
  | err (e : DecodeErr)
  | panicked
deriving DecidableEq

/-- Result of running a Go pointer-receiver method: the outcome together
with the final value of the receiver. -/
structure GoCall (σ : Type) where
  outcome : Outcome
  state : σ
deriving DecidableEq

/-- JSON whitespace characters, as accepted around a top-level value by
the encoding/json package. -/
def jsonWs (c : Char) : Bool := c = ' ' || c = '\t' || c = '\n' || c = '\r'

/-- Drop leading JSON whitespace. -/
def dropWs (l : List Char) : List Char := l.dropWhile jsonWs

/-- ASCII decimal digit test. -/
def isDigitChar (c : Char) : Bool := 48 ≤ c.toNat && c.toNat ≤ 57

/-- Numeric value of an ASCII decimal digit. -/
def digitVal (c : Char) : Nat := c.toNat - 48

/-- Value of a hexadecimal digit, accepting both cases as encoding/hex
does; none on a non-hex character. -/
def hexVal (c : Char) : Option Nat :=
  if 48 ≤ c.toNat && c.toNat ≤ 57 then some (c.toNat - 48)
  else if 97 ≤ c.toNat && c.toNat ≤ 102 then some (c.toNat - 87)
  else if 65 ≤ c.toNat && c.toNat ≤ 70 then some (c.toNat - 55)
  else none

/-- ASCII character of a decimal digit value below ten. -/
def digitChar (d : Nat) : Char :=
  match d with
  | 0 => '0' | 1 => '1' | 2 => '2' | 3 => '3' | 4 => '4'
  | 5 => '5' | 6 => '6' | 7 => '7' | 8 => '8' | _ => '9'

/-- Lowercase hexadecimal digit of a value below sixteen, as produced by
encoding/hex. -/
def hexDigit (d : Nat) : Char :=
  match d with
  | 0 => '0' | 1 => '1' | 2 => '2' | 3 => '3' | 4 => '4'
  | 5 => '5' | 6 => '6' | 7 => '7' | 8 => '8' | 9 => '9'
  | 10 => 'a' | 11 => 'b' | 12 => 'c' | 13 => 'd' | 14 => 'e' | _ => 'f'

/-- Four hexadecimal digits at the front of the input, with the remainder;
none when the input is shorter or a character is not a hex digit. -/
def hex4 (l : List Char) : Option (Nat × List Char) :=
  match l with
  | a :: b :: c :: d :: r =>
    match hexVal a, hexVal b, hexVal c, hexVal d with
    | some x, some y, some z, some w => some (((x * 16 + y) * 16 + z) * 16 + w, r)
    | _, _, _, _ => none
  | _ => none

/-- One escape sequence of a JSON string literal, starting after the
backslash, as handled by the encoding/json unquoter: the produced character
and the remaining input. Escape sequences follow RFC 8259; a high surrogate
escape followed by a valid low surrogate escape combines into one code
point, and an unpaired surrogate escape becomes U+FFFD with scanning
resuming right after it, as in Go. -/
def escStep : List Char → Option (Char × List Char)
  | [] => none
  | e :: r2 =>
    if e = '"' || e = '\\' || e = '/' then some (e, r2)
    else if e = 'b' then some (Char.ofNat 8, r2)
    else if e = 'f' then some (Char.ofNat 12, r2)
    else if e = 'n' then some ('\n', r2)
    else if e = 'r' then some ('\r', r2)
    else if e = 't' then some ('\t', r2)
    else if e = 'u' then
      match hex4 r2 with
      | none => none
      | some (code, r3) =>
        if 0xD800 ≤ code ∧ code ≤ 0xDBFF then
          match r3 with
          | '\\' :: 'u' :: rr =>
            match hex4 rr with
            | some (low, r4) =>
              if 0xDC00 ≤ low ∧ low ≤ 0xDFFF then
                some (Char.ofNat (0x10000 + (code - 0xD800) * 0x400 + (low - 0xDC00)), r4)
              else some (Char.ofNat 0xFFFD, r3)
            | none => some (Char.ofNat 0xFFFD, r3)
          | _ => some (Char.ofNat 0xFFFD, r3)
        else if 0xDC00 ≤ code ∧ code ≤ 0xDFFF then some (Char.ofNat 0xFFFD, r3)
        else some (Char.ofNat code, r3)
    else none

/-- Scanner for the body of a JSON string literal, as implemented by the
encoding/json unquoter: the input is everything after the opening quote;
on success it returns the decoded content and the characters after the
closing quote. A raw control character is rejected; escape sequences go
through escStep. Fuel drives the recursion; every step consumes at least
one character, so one unit of fuel per character plus one is sufficient. -/
def scanJsonStringGo : Nat → List Char → Option (List Char × List Char)
  | _, [] => none
  | 0, _ :: _ => none
  | fuel + 1, c :: rest =>
    if c = '"' then some ([], rest)
    else if c = '\\' then
      match escStep rest with
      | some (ch, r2) => (scanJsonStringGo fuel r2).map (fun p => (ch :: p.1, p.2))
      | none => none
    else if c.toNat < 32 then none
    else (scanJsonStringGo fuel rest).map (fun p => (c :: p.1, p.2))

/-- The scanner with enough fuel for its input: every recursive step of
scanJsonStringGo consumes at least one character, so one unit of fuel per
character plus one is always sufficient. -/
def scanJsonString (l : List Char) : Option (List Char × List Char) :=
  scanJsonStringGo (l.length + 1) l

/-- Test for a JSON null token, possibly surrounded by whitespace. -/
def isNullToken (b : List Char) : Bool :=
  match dropWs b with
  | 'n' :: 'u' :: 'l' :: 'l' :: r => (dropWs r).isEmpty
  | _ => false

/-- Model of the standard library call json.Unmarshal(b, str) for a string
target str that starts out empty: the input must be a single JSON string
token (surrounded by optional whitespace), whose decoded content is
returned; a JSON null is accepted and leaves the fresh empty string
unchanged, which the encoding/json package treats as a no-op success. -/
def jsonUnmarshalString (b : List Char) : Except DecodeErr (List Char) :=
  if isNullToken b then .ok []
  else
    match dropWs b with
    | '"' :: r =>
      match scanJsonString r with
      | some (content, rest) =>
        if (dropWs rest).isEmpty then .ok content else .error .malformedString
      | none => .error .malformedString
    | _ => .error .malformedString

/-- Escaping of one character by json.Marshal of a string: quote,
backslash, the control characters and the HTML characters are escaped, the
rest is emitted verbatim. -/
def escapeChar (c : Char) : List Char :=
  if c = '"' then ['\\', '"']
  else if c = '\\' then ['\\', '\\']
  else if c = '\n' then ['\\', 'n']
  else if c = '\r' then ['\\', 'r']
  else if c = '\t' then ['\\', 't']
  else if c.toNat < 32 then
    ['\\', 'u', '0', '0', hexDigit (c.toNat / 16), hexDigit (c.toNat % 16)]
  else if c = '<' || c = '>' || c = '&' then
    ['\\', 'u', '0', '0', hexDigit (c.toNat / 16), hexDigit (c.toNat % 16)]
  else if c.toNat = 0x2028 || c.toNat = 0x2029 then
    ['\\', 'u', '2', '0', '2', hexDigit (c.toNat % 16)]
  else [c]

/-- Model of the standard library call json.Marshal(s) for a string value:
the escaped content between double quotes. -/
def jsonMarshalString (s : List Char) : List Char :=
  '"' :: (s.map escapeChar).flatten ++ ['"']

/-- Fuel-driven decimal printer: each step divides by ten, so fuel equal
to the number plus one always suffices. -/
def natToDigitsGo (fuel n : Nat) : List Char :=
  match fuel with
  | 0 => []
  | fuel + 1 =>
    if n < 10 then [digitChar n]
    else natToDigitsGo fuel (n / 10) ++ [digitChar (n % 10)]

/-- Decimal digit list of a natural number, most significant digit first,
as produced by the fmt package verb for unsigned decimal output. -/
def natToDigits (n : Nat) : List Char :=
  natToDigitsGo (n + 1) n

/-- Numeric value of a decimal digit list, most significant first. -/
def parseDigitsVal (s : List Char) : Nat :=
  s.foldl (fun a c => a * 10 + digitVal c) 0

/-- Modelled from the spec: util.StrToUint64 (package internal/util, not in
src/), the trusted decimal-parsing primitive. Per the spec it rejects empty
strings, non-digit characters (hence any whitespace or sign) and values
exceeding 2^64 - 1; otherwise it returns the decimal value. -/
def StrToUint64 (s : List Char) : Except DecodeErr Nat :=
  if s.isEmpty then .error .malformedNumber
  else if ¬ s.all isDigitChar then .error .malformedNumber
  else if parseDigitsVal s < 2 ^ 64 then .ok (parseDigitsVal s)
  else .error .malformedNumber

/-- Embedding of U64.UnmarshalJSON from api/util.go. The receiver is the
uint64 value of the U64 (as a Nat below 2^64); the argument is the raw JSON
token. The source indexes b[0] and b[len(b)-1] without a length check, so
the empty input panics; if the first and last byte are both a double quote
the token is decoded as a JSON string, otherwise the raw bytes are the
literal; the literal then goes through StrToUint64 and only on success is
the receiver overwritten. -/
def U64UnmarshalJSON (u : Nat) (b : List Char) : GoCall Nat :=
  match b with
  | [] => ⟨.panicked, u⟩
  | c0 :: rest =>
    let strRes : Except DecodeErr (List Char) :=
      if c0 = '"' ∧ (c0 :: rest).getLast? = some '"' then
        jsonUnmarshalString (c0 :: rest)
      else
        .ok (c0 :: rest)
    match strRes with
    | .error e => ⟨.err e, u⟩
    | .ok str =>
      match StrToUint64 str with
      | .error e => ⟨.err e, u⟩
      | .ok uv => ⟨.ok, uv⟩

/-- Embedding of U64.MarshalJSON from api/util.go: json.Marshal of the
decimal string produced by fmt from the uint64 value of the receiver. The
explicit reduction modulo 2^64 records that the receiver is a machine
uint64. -/
def U64MarshalJSON (u : Nat) : List Char :=
  jsonMarshalString (natToDigits (u % 2 ^ 64))

/-- Decoder core of encoding/hex: pairs of hexadecimal digits become bytes;
an odd-length or non-hex input fails; the empty input yields no bytes. -/
def hexDecode : List Char → Except DecodeErr (List Nat)
  | [] => .ok []
  | c1 :: c2 :: rest =>
    match hexVal c1, hexVal c2, hexDecode rest with
    | some a, some b, .ok bs => .ok ((a * 16 + b) :: bs)
    | _, _, _ => .error .malformedBytes
  | _ :: [] => .error .malformedBytes

/-- Encoder core of encoding/hex: each byte becomes two lowercase
hexadecimal digits. The reduction modulo 256 records that elements are
machine bytes. -/
def hexEncode (bs : List Nat) : List Char :=
  (bs.map (fun x => [hexDigit (x % 256 / 16), hexDigit (x % 256 % 16)])).flatten

/-- Leading 0x test, as strings.HasPrefix with the 0x literal. -/
def startsWith0x : List Char → Bool
  | '0' :: 'x' :: _ => true
  | _ => false

/-- Drop a leading 0x if present. -/
def strip0x : List Char → List Char
  | '0' :: 'x' :: r => r
  | s => s

/-- Modelled from the spec: util.ParseHex (package internal/util, not in
src/), the trusted hexadecimal codec. Per the spec it accepts hexadecimal
with or without the 0x marker, decoding 0x alone to the empty byte
sequence, while the empty string fails as malformed bytes. -/
def ParseHex (s : List Char) : Except DecodeErr (List Nat) :=
  if s.isEmpty then .error .malformedBytes
  else hexDecode (strip0x s)

/-- Modelled from the spec: util.BytesToHex (package internal/util, not in
src/), the trusted hexadecimal encoder: a 0x marker followed by the
lowercase hexadecimal digits of the bytes. -/
def BytesToHex (bs : List Nat) : List Char :=
  '0' :: 'x' :: hexEncode bs

/-- Value of a standard base64 alphabet character, none otherwise. -/
def base64Val (c : Char) : Option Nat :=
  if 65 ≤ c.toNat && c.toNat ≤ 90 then some (c.toNat - 65)
  else if 97 ≤ c.toNat && c.toNat ≤ 122 then some (c.toNat - 97 + 26)
  else if 48 ≤ c.toNat && c.toNat ≤ 57 then some (c.toNat - 48 + 52)
  else if c = '+' then some 62
  else if c = '/' then some 63
  else none

/-- Quantum decoder of encoding/base64 StdEncoding: four characters become
three bytes; the final quantum may end in one or two padding characters,
yielding two or one bytes, and padding is allowed only there; the default
decoder does not reject nonzero trailing bits. -/
def base64Quanta : List Char → Except DecodeErr (List Nat)
  | [] => .ok []
  | a :: b :: c :: d :: rest =>
    match base64Val a, base64Val b with
    | some va, some vb =>
      if c = '=' then
        if d = '=' ∧ rest = [] then .ok [va * 4 + vb / 16]
        else .error .malformedBytes
      else
        match base64Val c with
        | some vc =>
          if d = '=' then
            if rest = [] then .ok [va * 4 + vb / 16, vb % 16 * 16 + vc / 4]
            else .error .malformedBytes
          else
            match base64Val d, base64Quanta rest with
            | some vd, .ok bs =>
              .ok ((va * 4 + vb / 16) :: (vb % 16 * 16 + vc / 4) :: (vc % 4 * 64 + vd) :: bs)
            | _, _ => .error .malformedBytes
        | none => .error .malformedBytes
    | _, _ => .error .malformedBytes
  | _ => .error .malformedBytes

/-- Model of base64.StdEncoding.DecodeString: newline characters are
ignored, then the input is decoded in four-character quanta; a length that
is not a multiple of four, a character outside the alphabet, or padding
anywhere but the end fails. -/
def base64StdDecode (s : List Char) : Except DecodeErr (List Nat) :=
  base64Quanta (s.filter (fun c => c ≠ '\n' && c ≠ '\r'))

/-- Format decision of HexBytes.UnmarshalJSON on the decoded string
content, exactly as in api/util.go: a leading 0x forces hexadecimal, else a
trailing padding character forces base64, else hexadecimal is attempted
and base64 is the fallback on hex failure. -/
def hexBytesDecodeStr (str : List Char) : Except DecodeErr (List Nat) :=
  if startsWith0x str then ParseHex str
  else if str.getLast? = some '=' then base64StdDecode str
  else
    match ParseHex str with
    | .ok bs => .ok bs
    | .error _ => base64StdDecode str

/-- Embedding of HexBytes.UnmarshalJSON from api/util.go: the raw token must
be a JSON string; its content goes through the format decision; only on
success is the receiver overwritten with the decoded bytes. -/
def HexBytesUnmarshalJSON (u : List Nat) (b : List Char) : GoCall (List Nat) :=
  match jsonUnmarshalString b with
  | .error e => ⟨.err e, u⟩
  | .ok str =>
    match hexBytesDecodeStr str with
    | .error e => ⟨.err e, u⟩
    | .ok bytes => ⟨.ok, bytes⟩

/-- Embedding of HexBytes.MarshalJSON from api/util.go: json.Marshal of
BytesToHex of the receiver. -/
def HexBytesMarshalJSON (u : List Nat) : List Char :=
  jsonMarshalString (BytesToHex u)

/-- Modelled from the spec: the account-address collaborator type
(package internal/types, not in src/). The spec treats it as an opaque
trusted codec, so the model records only the decoded string content. -/
structure AccountAddress where
  content : List Char
deriving DecidableEq

/-- Modelled from the spec: the JSON decoder of the account-address
collaborator. It decodes from a JSON string token per its own contract;
the internal address validation is out of the specified scope. -/
def AccountAddressUnmarshalJSON (b : List Char) : Except DecodeErr AccountAddress :=
  (jsonUnmarshalString b).map AccountAddress.mk

/-- Modelled from the spec: the JSON encoder of the account-address
collaborator, emitting its canonical JSON string token. -/
def AccountAddressMarshalJSON (a : AccountAddress) : List Char :=
  jsonMarshalString a.content

/-- State of the GUID struct of api/util.go: the CreationNumber uint64 and
the AccountAddress pointer, none for a nil pointer. -/
structure GUIDState where
  CreationNumber : Nat
  AccountAddress : Option AccountAddress
deriving DecidableEq

/-- Model of encoding/json struct decoding for the inner struct of
GUID.UnmarshalJSON, with the raw JSON object token represented as its
key and raw-value-token pairs in source order. Following encoding/json: a
missing key keeps the zero value of the field, an unknown key is ignored,
a repeated key is processed again (last value wins), the first field error
is recorded while scanning continues, a null for the pointer-typed
account_address field sets the pointer to nil without invoking the address
decoder, and a null for the creation_number field is handed to
U64.UnmarshalJSON as the raw literal. A panic in a field decoder
propagates immediately. -/
def decodeInnerFields : List (String × List Char) → GUIDState → Option DecodeErr →
    GoCall GUIDState
  | [], st, e? =>
    match e? with
    | none => ⟨.ok, st⟩
    | some e => ⟨.err e, st⟩
  | (k, tok) :: rest, st, e? =>
    if k = "creation_number" then
      let r := U64UnmarshalJSON st.CreationNumber tok
      match r.outcome with
      | .panicked => ⟨.panicked, { st with CreationNumber := r.state }⟩
      | .ok => decodeInnerFields rest { st with CreationNumber := r.state } e?
      | .err e =>
        decodeInnerFields rest { st with CreationNumber := r.state } (e?.getD e |> some)
    else if k = "account_address" then
      if isNullToken tok then
        decodeInnerFields rest { st with AccountAddress := none } e?
      else
        match AccountAddressUnmarshalJSON tok with
        | .ok a => decodeInnerFields rest { st with AccountAddress := some a } e?
        | .error e => decodeInnerFields rest st (e?.getD e |> some)
    else decodeInnerFields rest st e?

/-- Embedding of GUID.UnmarshalJSON from api/util.go: json.Unmarshal into a
fresh zero-valued inner struct, and only when that returns no error are the
two receiver fields assigned from the inner struct (CreationNumber through
ToUint64, the identity on the already validated value). -/
def GUIDUnmarshalJSON (o : GUIDState) (fields : List (String × List Char)) :
    GoCall GUIDState :=
  let r := decodeInnerFields fields ⟨0, none⟩ none
  match r.outcome with
  | .panicked => ⟨.panicked, o⟩
  | .err e => ⟨.err e, o⟩
  | .ok => ⟨.ok, ⟨r.state.CreationNumber, r.state.AccountAddress⟩⟩

/-- Embedding of GUID.MarshalJSON from api/util.go: json.Marshal of the
anonymous struct, emitting the two fields in declaration order, the
CreationNumber through U64.MarshalJSON and the address through its own
encoder, a nil pointer becoming a JSON null. -/
def GUIDMarshalJSON (o : GUIDState) : List (String × List Char) :=
  [("creation_number", U64MarshalJSON o.CreationNumber),
   ("account_address",
     match o.AccountAddress with
     | none => ['n', 'u', 'l', 'l']
     | some a => AccountAddressMarshalJSON a)]

theorem digitChar_round : ∀ d, d < 10 → digitVal (digitChar d) = d ∧
    isDigitChar (digitChar d) = true := by decide

theorem digitChar_plain : ∀ d, d < 10 → escapeChar (digitChar d) = [digitChar d] ∧
    digitChar d ≠ '"' ∧ digitChar d ≠ '\\' ∧ 32 ≤ (digitChar d).toNat := by decide

theorem hexDigit_round : ∀ d, d < 16 → hexVal (hexDigit d) = some d := by decide

theorem hexDigit_plain : ∀ d, d < 16 → escapeChar (hexDigit d) = [hexDigit d] ∧
    hexDigit d ≠ '"' ∧ hexDigit d ≠ '\\' ∧ 32 ≤ (hexDigit d).toNat := by decide

theorem parseDigitsVal_concat (xs : List Char) (c : Char) :
    parseDigitsVal (xs ++ [c]) = parseDigitsVal xs * 10 + digitVal c := by
  simp [parseDigitsVal, List.foldl_append]

theorem natToDigitsGo_spec (fuel : Nat) : ∀ n, n < fuel →
    natToDigitsGo fuel n ≠ [] ∧
    (∀ c ∈ natToDigitsGo fuel n, ∃ d, d < 10 ∧ c = digitChar d) ∧
    parseDigitsVal (natToDigitsGo fuel n) = n := by
  induction fuel with
  | zero => intro n hn; omega
  | succ fuel ih =>
    intro n hn
    by_cases h10 : n < 10
    · refine ⟨by simp [natToDigitsGo, h10], ?_, ?_⟩
      · intro c hc
        simp [natToDigitsGo, h10] at hc
        exact ⟨n, h10, hc⟩
      · simp [natToDigitsGo, h10, parseDigitsVal, List.foldl,
          (digitChar_round n h10).1]
    · have hdiv : n / 10 < fuel := by
        have := Nat.div_lt_self (show 0 < n by omega) (show 1 < 10 by omega)
        omega
      obtain ⟨hne, hmem, hval⟩ := ih (n / 10) hdiv
      refine ⟨by simp [natToDigitsGo, h10], ?_, ?_⟩
      · intro c hc
        simp only [natToDigitsGo, if_neg h10, List.mem_append,
          List.mem_singleton] at hc
        rcases hc with hc | hc
        · exact hmem c hc
        · exact ⟨n % 10, by omega, hc⟩
      · simp only [natToDigitsGo, if_neg h10]
        rw [parseDigitsVal_concat, hval, (digitChar_round (n % 10) (by omega)).1]
        omega

theorem natToDigits_spec (n : Nat) :
    natToDigits n ≠ [] ∧
    (∀ c ∈ natToDigits n, ∃ d, d < 10 ∧ c = digitChar d) ∧
    parseDigitsVal (natToDigits n) = n :=
  natToDigitsGo_spec (n + 1) n (by omega)

theorem natToDigits_all_digits (n : Nat) :
    (natToDigits n).all isDigitChar = true := by
  rw [List.all_eq_true]
  intro c hc
  obtain ⟨d, hd, rfl⟩ := (natToDigits_spec n).2.1 c hc
  exact (digitChar_round d hd).2

theorem StrToUint64_natToDigits (v : Nat) (hv : v < 2 ^ 64) :
    StrToUint64 (natToDigits v) = .ok v := by
  obtain ⟨hne, _, hval⟩ := natToDigits_spec v
  rw [StrToUint64, if_neg (by simpa using hne),
    if_neg (by simp [natToDigits_all_digits v])]
  simp only [hval, if_pos hv]

theorem StrToUint64_ok_lt {s : List Char} {v : Nat} (h : StrToUint64 s = .ok v) :
    v < 2 ^ 64 := by
  rw [StrToUint64] at h
  split at h
  · exact absurd h (by simp)
  · split at h
    · exact absurd h (by simp)
    · split at h
      · rename_i hlt
        simp only [Except.ok.injEq] at h
        omega
      · exact absurd h (by simp)

theorem scanJsonStringGo_plain (s : List Char) : ∀ fuel r,
    s.length < fuel → (∀ c ∈ s, c ≠ '"' ∧ c ≠ '\\' ∧ 32 ≤ c.toNat) →
    scanJsonStringGo fuel (s ++ '"' :: r) = some (s, r) := by
  induction s with
  | nil =>
    intro fuel r hf _
    match fuel, hf with
    | fuel + 1, _ => rfl
  | cons c s ih =>
    intro fuel r hf hplain
    obtain ⟨hq, hbs, hctl⟩ := hplain c (by simp)
    match fuel, hf with
    | fuel + 1, hf =>
      have hrec := ih fuel r (by simpa using Nat.lt_of_succ_lt_succ hf)
        (fun c hc => hplain c (by simp [hc]))
      simp only [List.cons_append, scanJsonStringGo]
      rw [if_neg hq, if_neg hbs, if_neg (by omega : ¬ c.toNat < 32)]
      simp only [List.append_eq, hrec]
      rfl

theorem scanJsonString_plain (s r : List Char)
    (hplain : ∀ c ∈ s, c ≠ '"' ∧ c ≠ '\\' ∧ 32 ≤ c.toNat) :
    scanJsonString (s ++ '"' :: r) = some (s, r) := by
  rw [scanJsonString]
  exact scanJsonStringGo_plain s _ r (by simp; omega) hplain

theorem flattenEscape (s : List Char) (h : ∀ c ∈ s, escapeChar c = [c]) :
    (List.map escapeChar s).flatten = s := by
  induction s with
  | nil => rfl
  | cons c s ih =>
    simp only [List.map_cons, List.flatten_cons, h c (by simp)]
    rw [ih (fun x hx => h x (by simp [hx]))]
    rfl

theorem jsonMarshalString_plain (s : List Char)
    (h : ∀ c ∈ s, escapeChar c = [c]) :
    jsonMarshalString s = '"' :: s ++ ['"'] := by
  rw [jsonMarshalString, flattenEscape s h]

theorem jsonUnmarshalString_plainQuoted (s : List Char)
    (hplain : ∀ c ∈ s, c ≠ '"' ∧ c ≠ '\\' ∧ 32 ≤ c.toNat) :
    jsonUnmarshalString ('"' :: s ++ ['"']) = .ok s := by
  have hdrop : dropWs ('"' :: (s ++ ['"'])) = '"' :: (s ++ ['"']) := by
    rw [dropWs, List.dropWhile_cons, if_neg (by decide : ¬ jsonWs '"' = true)]
  have hnull : isNullToken ('"' :: (s ++ ['"'])) = false := by
    unfold isNullToken
    rw [hdrop]
    rfl
  have hscan : scanJsonString (s ++ ['"']) = some (s, []) :=
    scanJsonString_plain s [] hplain
  unfold jsonUnmarshalString
  rw [if_neg (by simp [hnull])]
  rw [show dropWs ('"' :: s ++ ['"']) = '"' :: (s ++ ['"']) from hdrop]
  simp only [hscan]
  rfl

theorem natToDigits_plainChars (n : Nat) :
    ∀ c ∈ natToDigits n, c ≠ '"' ∧ c ≠ '\\' ∧ 32 ≤ c.toNat := by
  intro c hc
  obtain ⟨d, hd, rfl⟩ := (natToDigits_spec n).2.1 c hc
  obtain ⟨_, h1, h2, h3⟩ := digitChar_plain d hd
  exact ⟨h1, h2, h3⟩

theorem natToDigits_escape (n : Nat) :
    ∀ c ∈ natToDigits n, escapeChar c = [c] := by
  intro c hc
  obtain ⟨d, hd, rfl⟩ := (natToDigits_spec n).2.1 c hc
  exact (digitChar_plain d hd).1

theorem U64MarshalJSON_shape (v : Nat) :
    U64MarshalJSON v = '"' :: natToDigits (v % 2 ^ 64) ++ ['"'] := by
  rw [U64MarshalJSON, jsonMarshalString_plain _ (natToDigits_escape _)]

theorem u64_path_quoted (u : Nat) (c0 : Char) (rest : List Char)
    (h : c0 = '"' ∧ (c0 :: rest).getLast? = some '"') :
    U64UnmarshalJSON u (c0 :: rest) =
      (match jsonUnmarshalString (c0 :: rest) with
       | .error e => ⟨.err e, u⟩
       | .ok str =>
         match StrToUint64 str with
         | .error e => ⟨.err e, u⟩
         | .ok uv => ⟨.ok, uv⟩) := by
  simp only [U64UnmarshalJSON, if_pos h]

theorem u64_path_raw (u : Nat) (c0 : Char) (rest : List Char)
    (h : ¬ (c0 = '"' ∧ (c0 :: rest).getLast? = some '"')) :
    U64UnmarshalJSON u (c0 :: rest) =
      (match StrToUint64 (c0 :: rest) with
       | .error e => ⟨.err e, u⟩
       | .ok uv => ⟨.ok, uv⟩) := by
  simp only [U64UnmarshalJSON, if_neg h]

theorem U64_unmarshal_quotedDigits (v : Nat) (hv : v < 2 ^ 64) (u : Nat) :
    U64UnmarshalJSON u ('"' :: natToDigits v ++ ['"']) = ⟨.ok, v⟩ := by
  have hlast : ('"' :: (natToDigits v ++ ['"'])).getLast? = some '"' := by
    rw [show ('"' :: (natToDigits v ++ ['"'])) = ('"' :: natToDigits v) ++ ['"'] by
      simp]
    exact List.getLast?_concat _
  have hstr := jsonUnmarshalString_plainQuoted (natToDigits v)
    (natToDigits_plainChars v)
  simp only [List.cons_append] at hstr ⊢
  rw [u64_path_quoted u '"' (natToDigits v ++ ['"']) ⟨rfl, hlast⟩, hstr]
  show (match StrToUint64 (natToDigits v) with
        | .error e => (⟨.err e, u⟩ : GoCall Nat)
        | .ok uv => ⟨.ok, uv⟩) = ⟨.ok, v⟩
  rw [StrToUint64_natToDigits v hv]

theorem U64_unmarshal_ok_lt {u : Nat} {b : List Char} {v : Nat}
    (h : U64UnmarshalJSON u b = ⟨.ok, v⟩) : v < 2 ^ 64 := by
  match b with
  | [] => exact absurd h (by simp [U64UnmarshalJSON])
  | c0 :: rest =>
    simp only [U64UnmarshalJSON] at h
    split at h
    · exact absurd h (by simp)
    · rename_i str heqStr
      split at h
      · exact absurd h (by simp)
      · rename_i uv heqU
        simp only [GoCall.mk.injEq] at h
        obtain ⟨-, rfl⟩ := h
        exact StrToUint64_ok_lt heqU

theorem isDigitChar_facts {c : Char} (h : isDigitChar c = true) :
    c ≠ '"' ∧ c ≠ '\\' ∧ 32 ≤ c.toNat := by
  simp only [isDigitChar, Bool.and_eq_true, decide_eq_true_eq] at h
  refine ⟨?_, ?_, by omega⟩
  · intro he
    subst he
    have h34 : ('"' : Char).toNat = 34 := rfl
    omega
  · intro he
    subst he
    have h92 : ('\\' : Char).toNat = 92 := rfl
    omega

theorem StrToUint64_overflow {s : List Char} (hall : s.all isDigitChar = true)
    (hge : 2 ^ 64 ≤ parseDigitsVal s) (hne : s ≠ []) :
    StrToUint64 s = .error .malformedNumber := by
  rw [StrToUint64, if_neg (by simpa using hne), if_neg (by simp [hall]),
    if_neg (by omega)]

/-- C1: ScalarU64 round-trip law: decoding the result of encoding any
uint64 value v yields v, and for any input token that decodes successfully
to v, encoding v produces a token that decodes back to the same value, so
the encoded form is semantically equal to the input even though the
textual form normalizes to a quoted string. -/
theorem c1_scalarU64_roundTrip :
    (∀ v, v < 2 ^ 64 → ∀ u, U64UnmarshalJSON u (U64MarshalJSON v) = ⟨.ok, v⟩) ∧
    (∀ x u v u2, U64UnmarshalJSON u x = ⟨.ok, v⟩ →
      U64UnmarshalJSON u2 (U64MarshalJSON v) = ⟨.ok, v⟩) := by
  constructor
  · intro v hv u
    rw [U64MarshalJSON_shape, Nat.mod_eq_of_lt hv]
    exact U64_unmarshal_quotedDigits v hv u
  · intro x u v u2 h
    have hv := U64_unmarshal_ok_lt h
    rw [U64MarshalJSON_shape, Nat.mod_eq_of_lt hv]
    exact U64_unmarshal_quotedDigits v hv u2

/-- Witness for C1 at the concrete value 7 and the concrete bare token 7. -/
theorem c1_scalarU64_roundTrip_witness :
    U64UnmarshalJSON 0 (U64MarshalJSON 7) = ⟨.ok, 7⟩ ∧
    U64UnmarshalJSON 1 (U64MarshalJSON 7) = ⟨.ok, 7⟩ :=
  ⟨c1_scalarU64_roundTrip.1 7 (by decide) 0,
   c1_scalarU64_roundTrip.2 ['7'] 0 7 1 (by decide)⟩

/-- C6: ScalarU64 decode accepts two wire shapes selected by inspecting the
first and last byte of the raw token: when both are double quotes the
content is decoded as a JSON string literal, otherwise the raw bytes are
the literal; consequently the bare decimal token and the quoted decimal
token of any uint64 value decode to the identical value. -/
theorem c6_scalarU64_twoShapes :
    (∀ v, v < 2 ^ 64 → ∀ u, U64UnmarshalJSON u (natToDigits v) = ⟨.ok, v⟩) ∧
    (∀ v, v < 2 ^ 64 → ∀ u,
      U64UnmarshalJSON u ('"' :: natToDigits v ++ ['"']) = ⟨.ok, v⟩) ∧
    (∀ u c0 rest, (c0 = '"' ∧ (c0 :: rest).getLast? = some '"') →
      U64UnmarshalJSON u (c0 :: rest) =
        (match jsonUnmarshalString (c0 :: rest) with
         | .error e => ⟨.err e, u⟩
         | .ok str =>
           match StrToUint64 str with
           | .error e => ⟨.err e, u⟩
           | .ok uv => ⟨.ok, uv⟩)) ∧
    (∀ u c0 rest, ¬ (c0 = '"' ∧ (c0 :: rest).getLast? = some '"') →
      U64UnmarshalJSON u (c0 :: rest) =
        (match StrToUint64 (c0 :: rest) with
         | .error e => ⟨.err e, u⟩
         | .ok uv => ⟨.ok, uv⟩)) := by
  refine ⟨?_, ?_, ?_, ?_⟩
  · intro v hv u
    have hne := (natToDigits_spec v).1
    obtain ⟨c0, rest, hcons⟩ : ∃ c0 rest, natToDigits v = c0 :: rest := by
      cases hL : natToDigits v with
      | nil => exact absurd hL hne
      | cons a l => exact ⟨a, l, rfl⟩
    have hc0 : c0 ≠ '"' :=
      (natToDigits_plainChars v c0 (by rw [hcons]; simp)).1
    have hncond : ¬ (c0 = '"' ∧ (c0 :: rest).getLast? = some '"') :=
      fun hx => hc0 hx.1
    rw [hcons, u64_path_raw u c0 rest hncond, ← hcons,
      StrToUint64_natToDigits v hv]
  · intro v hv u
    exact U64_unmarshal_quotedDigits v hv u
  · intro u c0 rest h
    exact u64_path_quoted u c0 rest h
  · intro u c0 rest h
    exact u64_path_raw u c0 rest h

/-- Witness for C6 at the concrete value 7 for the bare and the quoted
shape, and at a concrete unquoted token for the detection rule. -/
theorem c6_scalarU64_twoShapes_witness :
    U64UnmarshalJSON 2 (natToDigits 7) = ⟨.ok, 7⟩ ∧
    U64UnmarshalJSON 2 ('"' :: natToDigits 7 ++ ['"']) = ⟨.ok, 7⟩ :=
  ⟨c6_scalarU64_twoShapes.1 7 (by decide) 2,
   c6_scalarU64_twoShapes.2.1 7 (by decide) 2⟩

/-- C7: ScalarU64 decode respects the exact unsigned 64-bit boundary: the
quoted decimal for 2^64 - 1 decodes to that value, the quoted decimal for
2^64 fails with a malformed-number error, and in general any all-digit
literal whose value is at least 2^64 is rejected. -/
theorem c7_scalarU64_boundary :
    (∀ u, U64UnmarshalJSON u ("\"18446744073709551615\"".data) =
      ⟨.ok, 18446744073709551615⟩) ∧
    (∀ u, U64UnmarshalJSON u ("\"18446744073709551616\"".data) =
      ⟨.err .malformedNumber, u⟩) ∧
    (∀ u s, s.all isDigitChar = true → 2 ^ 64 ≤ parseDigitsVal s →
      (U64UnmarshalJSON u s).outcome = .err .malformedNumber) := by
  refine ⟨fun u => rfl, fun u => rfl, ?_⟩
  intro u s hall hge
  match s with
  | [] =>
    have : parseDigitsVal [] = 0 := rfl
    omega
  | c0 :: rest =>
    have hc0 : c0 ≠ '"' :=
      (isDigitChar_facts (by
        have := hall
        simp only [List.all_cons, Bool.and_eq_true] at this
        exact this.1)).1
    have hncond : ¬ (c0 = '"' ∧ (c0 :: rest).getLast? = some '"') :=
      fun hx => hc0 hx.1
    rw [u64_path_raw u c0 rest hncond, StrToUint64_overflow hall hge (by simp)]

/-- Witness for C7: the boundary tokens at a concrete receiver, and the
general overflow rejection at the concrete literal of twenty nines. -/
theorem c7_scalarU64_boundary_witness :
    (U64UnmarshalJSON 3 ("\"18446744073709551615\"".data) =
      ⟨.ok, 18446744073709551615⟩) ∧
    (U64UnmarshalJSON 3 ("\"18446744073709551616\"".data) =
      ⟨.err .malformedNumber, 3⟩) ∧
    (U64UnmarshalJSON 3 ("99999999999999999999".data)).outcome =
      .err .malformedNumber :=
  ⟨c7_scalarU64_boundary.1 3, c7_scalarU64_boundary.2.1 3,
   c7_scalarU64_boundary.2.2 3 ("99999999999999999999".data)
     (by decide) (by decide)⟩

theorem hexEncode_cons (x : Nat) (xs : List Nat) :
    hexEncode (x :: xs) =
      hexDigit (x % 256 / 16) :: hexDigit (x % 256 % 16) :: hexEncode xs := by
  simp [hexEncode]

theorem hexDecode_hexEncode (bs : List Nat) :
    hexDecode (hexEncode bs) = .ok (bs.map (fun x => x % 256)) := by
  induction bs with
  | nil => rfl
  | cons x xs ih =>
    rw [hexEncode_cons]
    have h1 : hexVal (hexDigit (x % 256 / 16)) = some (x % 256 / 16) :=
      hexDigit_round _ (by omega)
    have h2 : hexVal (hexDigit (x % 256 % 16)) = some (x % 256 % 16) :=
      hexDigit_round _ (by omega)
    simp only [hexDecode, h1, h2, ih, List.map_cons]
    congr 2
    omega

theorem hexEncode_chars (bs : List Nat) :
    ∀ c ∈ hexEncode bs, ∃ d, d < 16 ∧ c = hexDigit d := by
  intro c hc
  simp only [hexEncode, List.mem_flatten, List.mem_map] at hc
  obtain ⟨l, ⟨x, _, rfl⟩, hcl⟩ := hc
  simp only [List.mem_cons, List.not_mem_nil, or_false] at hcl
  rcases hcl with rfl | rfl
  · exact ⟨x % 256 / 16, by omega, rfl⟩
  · exact ⟨x % 256 % 16, by omega, rfl⟩

theorem BytesToHex_escape (bs : List Nat) :
    ∀ c ∈ BytesToHex bs, escapeChar c = [c] := by
  intro c hc
  rw [BytesToHex] at hc
  simp only [List.mem_cons] at hc
  rcases hc with rfl | rfl | hc
  · decide
  · decide
  · obtain ⟨d, hd, rfl⟩ := hexEncode_chars bs c hc
    exact (hexDigit_plain d hd).1

theorem BytesToHex_plainChars (bs : List Nat) :
    ∀ c ∈ BytesToHex bs, c ≠ '"' ∧ c ≠ '\\' ∧ 32 ≤ c.toNat := by
  intro c hc
  rw [BytesToHex] at hc
  simp only [List.mem_cons] at hc
  rcases hc with rfl | rfl | hc
  · exact ⟨by decide, by decide, by decide⟩
  · exact ⟨by decide, by decide, by decide⟩
  · obtain ⟨d, hd, rfl⟩ := hexEncode_chars bs c hc
    obtain ⟨_, h1, h2, h3⟩ := hexDigit_plain d hd
    exact ⟨h1, h2, h3⟩

theorem map_mod256_id (bs : List Nat) (hlt : ∀ x ∈ bs, x < 256) :
    bs.map (fun x => x % 256) = bs := by
  induction bs with
  | nil => rfl
  | cons x xs ih =>
    simp only [List.map_cons, Nat.mod_eq_of_lt (hlt x (by simp))]
    rw [ih (fun y hy => hlt y (by simp [hy]))]

theorem hexBytesDecodeStr_canonical (bs : List Nat)
    (hlt : ∀ x ∈ bs, x < 256) :
    hexBytesDecodeStr (BytesToHex bs) = .ok bs := by
  rw [BytesToHex, hexBytesDecodeStr,
    if_pos (show startsWith0x ('0' :: 'x' :: hexEncode bs) = true from rfl),
    ParseHex, if_neg (by simp),
    show strip0x ('0' :: 'x' :: hexEncode bs) = hexEncode bs from rfl,
    hexDecode_hexEncode, map_mod256_id bs hlt]

/-- C2: ByteBlob round-trip law: encoding any byte sequence always
produces the 0x-marked lowercase hexadecimal JSON string, and decoding
that encoding yields exactly the original bytes. -/
theorem c2_hexBytes_roundTrip :
    ∀ u bs, (∀ x ∈ bs, x < 256) →
      HexBytesMarshalJSON bs = '"' :: BytesToHex bs ++ ['"'] ∧
      HexBytesUnmarshalJSON u (HexBytesMarshalJSON bs) = ⟨.ok, bs⟩ := by
  intro u bs hlt
  have hshape : HexBytesMarshalJSON bs = '"' :: BytesToHex bs ++ ['"'] := by
    rw [HexBytesMarshalJSON, jsonMarshalString_plain _ (BytesToHex_escape bs)]
  refine ⟨hshape, ?_⟩
  have hstr := jsonUnmarshalString_plainQuoted (BytesToHex bs)
    (BytesToHex_plainChars bs)
  rw [hshape]
  simp only [List.cons_append] at hstr ⊢
  simp only [HexBytesUnmarshalJSON, hstr]
  show (match hexBytesDecodeStr (BytesToHex bs) with
        | .error e => (⟨.err e, u⟩ : GoCall (List Nat))
        | .ok bytes => ⟨.ok, bytes⟩) = ⟨.ok, bs⟩
  rw [hexBytesDecodeStr_canonical bs hlt]

/-- Witness for C2 at the concrete byte sequence 0x12 0x34. -/
theorem c2_hexBytes_roundTrip_witness :
    HexBytesMarshalJSON [18, 52] = '"' :: BytesToHex [18, 52] ++ ['"'] ∧
    HexBytesUnmarshalJSON [9] (HexBytesMarshalJSON [18, 52]) = ⟨.ok, [18, 52]⟩ :=
  c2_hexBytes_roundTrip [9] [18, 52] (by decide)

/-- C3: ByteBlob decode applies its format heuristics in order on the
decoded string content: a leading 0x forces hexadecimal decoding only; else
a trailing padding character forces standard base64 only; otherwise
hexadecimal is attempted first with standard base64 as the fallback; and
when both primitive decoders fail the decode fails. -/
theorem c3_hexBytes_decisionOrder :
    (∀ s, startsWith0x s = true → hexBytesDecodeStr s = ParseHex s) ∧
    (∀ s, startsWith0x s = false → s.getLast? = some '=' →
      hexBytesDecodeStr s = base64StdDecode s) ∧
    (∀ s, startsWith0x s = false → s.getLast? ≠ some '=' →
      hexBytesDecodeStr s =
        (match ParseHex s with
         | .ok bs => .ok bs
         | .error _ => base64StdDecode s)) ∧
    (∀ s e1 e2, ParseHex s = .error e1 → base64StdDecode s = .error e2 →
      ∃ e, hexBytesDecodeStr s = .error e) := by
  refine ⟨?_, ?_, ?_, ?_⟩
  · intro s h
    rw [hexBytesDecodeStr, if_pos h]
  · intro s h h2
    rw [hexBytesDecodeStr, if_neg (by simp [h]), if_pos h2]
  · intro s h h2
    rw [hexBytesDecodeStr, if_neg (by simp [h]), if_neg h2]
  · intro s e1 e2 hhex hb64
    rw [hexBytesDecodeStr]
    by_cases hsw : startsWith0x s = true
    · rw [if_pos hsw, hhex]
      exact ⟨e1, rfl⟩
    · rw [if_neg hsw]
      by_cases hl : s.getLast? = some '='
      · rw [if_pos hl, hb64]
        exact ⟨e2, rfl⟩
      · rw [if_neg hl, hhex, hb64]
        exact ⟨e2, rfl⟩

/-- Witness for C3 at concrete strings: the 0x-marked string 0x12, the
padded base64 string Eg==, the bare hex string 12, and the string q which
is neither valid hex nor valid base64. -/
theorem c3_hexBytes_decisionOrder_witness :
    hexBytesDecodeStr ['0', 'x', '1', '2'] = ParseHex ['0', 'x', '1', '2'] ∧
    hexBytesDecodeStr ['E', 'g', '=', '='] = base64StdDecode ['E', 'g', '=', '='] ∧
    hexBytesDecodeStr ['1', '2'] =
      (match ParseHex ['1', '2'] with
       | .ok bs => .ok bs
       | .error _ => base64StdDecode ['1', '2']) ∧
    ∃ e, hexBytesDecodeStr ['q'] = .error e :=
  ⟨c3_hexBytes_decisionOrder.1 ['0', 'x', '1', '2'] rfl,
   c3_hexBytes_decisionOrder.2.1 ['E', 'g', '=', '='] rfl rfl,
   c3_hexBytes_decisionOrder.2.2.1 ['1', '2'] rfl (by decide),
   c3_hexBytes_decisionOrder.2.2.2 ['q'] .malformedBytes .malformedBytes
     rfl rfl⟩

/-- C5 counterexample: decoding the empty JSON string does not fail with a
malformed-bytes error; it succeeds and yields the empty byte sequence,
because the hexadecimal attempt fails but the standard base64 fallback
accepts the empty string. The claim asserts this input fails. -/
theorem c5_hexBytes_empty_counterexample :
    HexBytesUnmarshalJSON [9] ['"', '"'] = ⟨.ok, []⟩ := by decide

/-- C5 (amended): decoding the JSON string 0x succeeds with the empty byte
sequence, and decoding the empty JSON string also succeeds with the empty
byte sequence through the base64 fallback rather than failing. -/
theorem c5_hexBytes_emptyEdge :
    ∀ u, HexBytesUnmarshalJSON u ['"', '0', 'x', '"'] = ⟨.ok, []⟩ ∧
      HexBytesUnmarshalJSON u ['"', '"'] = ⟨.ok, []⟩ :=
  fun _ => ⟨rfl, rfl⟩

theorem decodeInner_addr (st : GUIDState) (e? : Option DecodeErr)
    (tok : List Char) (a : AccountAddress) (rest : List (String × List Char))
    (hnull : isNullToken tok = false)
    (ha : AccountAddressUnmarshalJSON tok = .ok a) :
    decodeInnerFields (("account_address", tok) :: rest) st e? =
      decodeInnerFields rest { st with AccountAddress := some a } e? := by
  simp only [decodeInnerFields]
  have hn : ¬ (isNullToken tok = true) := by simp [hnull]
  have hne : ¬ ("account_address" = "creation_number") := by decide
  rw [if_pos trivial, if_neg hn, ha, if_neg hne]

theorem decodeInner_cn_ok (st : GUIDState) (e? : Option DecodeErr)
    (tok : List Char) (v : Nat) (rest : List (String × List Char))
    (h : U64UnmarshalJSON st.CreationNumber tok = ⟨.ok, v⟩) :
    decodeInnerFields (("creation_number", tok) :: rest) st e? =
      decodeInnerFields rest { st with CreationNumber := v } e? := by
  simp only [decodeInnerFields]
  rw [if_pos trivial, h]

theorem decodeInner_cn_err (st : GUIDState) (e? : Option DecodeErr)
    (tok : List Char) (e : DecodeErr) (rest : List (String × List Char))
    (hout : (U64UnmarshalJSON st.CreationNumber tok).outcome = .err e) :
    decodeInnerFields (("creation_number", tok) :: rest) st e? =
      decodeInnerFields rest
        { st with CreationNumber := (U64UnmarshalJSON st.CreationNumber tok).state }
        (some (e?.getD e)) := by
  simp only [decodeInnerFields]
  rw [if_pos trivial, hout]

/-- C4 counterexample: decoding a JSON object that omits the
creation_number field does not fail; it succeeds with CreationNumber zero,
while the claim asserts that omitting either field fails with an error. -/
theorem c4_guid_omitted_counterexample :
    GUIDUnmarshalJSON ⟨7, some ⟨['z']⟩⟩
      [("account_address", ['"', '0', 'x', '1', '"'])] =
      ⟨.ok, ⟨0, some ⟨['0', 'x', '1']⟩⟩⟩ := by decide

/-- C4 (amended): EventGUID decode does not require both fields. A field
that is present must be individually well-formed: decoding the full
example object yields CreationNumber 3 and the address produced by the
address collaborator on the same token, and a present but malformed
creation_number fails with its error. An omitted field, however, keeps its
zero value (CreationNumber 0, AccountAddress nil) and decode succeeds, so
a default state does exist. -/
theorem c4_guid_fields :
    (AccountAddressUnmarshalJSON ['"', '0', 'x', '1', '"'] =
      .ok ⟨['0', 'x', '1']⟩ ∧
     ∀ o, GUIDUnmarshalJSON o
        [("creation_number", ['"', '3', '"']),
         ("account_address", ['"', '0', 'x', '1', '"'])] =
        ⟨.ok, ⟨3, some ⟨['0', 'x', '1']⟩⟩⟩) ∧
    (∀ o, GUIDUnmarshalJSON o [] = ⟨.ok, ⟨0, none⟩⟩) ∧
    (∀ o tok a, isNullToken tok = false →
      AccountAddressUnmarshalJSON tok = .ok a →
      GUIDUnmarshalJSON o [("account_address", tok)] = ⟨.ok, ⟨0, some a⟩⟩) ∧
    (∀ o tok v, U64UnmarshalJSON 0 tok = ⟨.ok, v⟩ →
      GUIDUnmarshalJSON o [("creation_number", tok)] = ⟨.ok, ⟨v, none⟩⟩) ∧
    (∀ o tok e, (U64UnmarshalJSON 0 tok).outcome = .err e →
      GUIDUnmarshalJSON o [("creation_number", tok)] = ⟨.err e, o⟩) := by
  refine ⟨⟨rfl, fun o => rfl⟩, fun o => rfl, ?_, ?_, ?_⟩
  · intro o tok a hnull ha
    have hstep := decodeInner_addr ⟨0, none⟩ none tok a [] hnull ha
    simp only [GUIDUnmarshalJSON, hstep]
    rfl
  · intro o tok v h
    have hstep := decodeInner_cn_ok ⟨0, none⟩ none tok v [] h
    simp only [GUIDUnmarshalJSON, hstep]
    rfl
  · intro o tok e h
    have hstep := decodeInner_cn_err ⟨0, none⟩ none tok e [] h
    simp only [GUIDUnmarshalJSON, hstep]
    rfl

/-- Witness for C4 at a concrete bare-number creation_number token and a
concrete malformed token. -/
theorem c4_guid_fields_witness :
    GUIDUnmarshalJSON ⟨9, some ⟨['q']⟩⟩ [("creation_number", ['3'])] =
      ⟨.ok, ⟨3, none⟩⟩ ∧
    GUIDUnmarshalJSON ⟨9, some ⟨['q']⟩⟩ [("creation_number", ['x'])] =
      ⟨.err .malformedNumber, ⟨9, some ⟨['q']⟩⟩⟩ :=
  ⟨c4_guid_fields.2.2.2.1 ⟨9, some ⟨['q']⟩⟩ ['3'] 3 (by decide),
   c4_guid_fields.2.2.2.2 ⟨9, some ⟨['q']⟩⟩ ['x'] .malformedNumber (by decide)⟩

/-- C8: ScalarU64 encode always serializes as a quoted decimal JSON string
and never as a bare number, and encoding any EventGUID emits the
creation_number field as that quoted decimal string. -/
theorem c8_u64_alwaysQuoted :
    (∀ v, U64MarshalJSON v = '"' :: natToDigits (v % 2 ^ 64) ++ ['"']) ∧
    (∀ g, List.lookup "creation_number" (GUIDMarshalJSON g) =
      some ('"' :: natToDigits (g.CreationNumber % 2 ^ 64) ++ ['"'])) := by
  refine ⟨U64MarshalJSON_shape, ?_⟩
  intro g
  have hlook : List.lookup "creation_number" (GUIDMarshalJSON g) =
      some (U64MarshalJSON g.CreationNumber) := rfl
  rw [hlook, U64MarshalJSON_shape]

theorem u64_ok_or_unchanged (u : Nat) (b : List Char) :
    (U64UnmarshalJSON u b).outcome = .ok ∨ (U64UnmarshalJSON u b).state = u := by
  match b with
  | [] => exact Or.inr rfl
  | c0 :: rest =>
    simp only [U64UnmarshalJSON]
    split
    · exact Or.inr rfl
    · split
      · exact Or.inr rfl
      · exact Or.inl rfl

theorem hexBytes_ok_or_unchanged (u : List Nat) (b : List Char) :
    (HexBytesUnmarshalJSON u b).outcome = .ok ∨
      (HexBytesUnmarshalJSON u b).state = u := by
  simp only [HexBytesUnmarshalJSON]
  split
  · exact Or.inr rfl
  · split
    · exact Or.inr rfl
    · exact Or.inl rfl

theorem guid_ok_or_unchanged (o : GUIDState) (fs : List (String × List Char)) :
    (GUIDUnmarshalJSON o fs).outcome = .ok ∨ (GUIDUnmarshalJSON o fs).state = o := by
  simp only [GUIDUnmarshalJSON]
  split
  · exact Or.inr rfl
  · exact Or.inr rfl
  · exact Or.inl rfl

/-- C9: decode is all-or-nothing: whenever U64.UnmarshalJSON,
HexBytes.UnmarshalJSON or GUID.UnmarshalJSON returns an error, the
receiver is left completely unchanged. -/
theorem c9_decode_atomic :
    (∀ u b e, (U64UnmarshalJSON u b).outcome = .err e →
      (U64UnmarshalJSON u b).state = u) ∧
    (∀ u b e, (HexBytesUnmarshalJSON u b).outcome = .err e →
      (HexBytesUnmarshalJSON u b).state = u) ∧
    (∀ o fs e, (GUIDUnmarshalJSON o fs).outcome = .err e →
      (GUIDUnmarshalJSON o fs).state = o) := by
  refine ⟨?_, ?_, ?_⟩
  · intro u b e h
    rcases u64_ok_or_unchanged u b with hok | hst
    · rw [hok] at h
      exact Outcome.noConfusion h
    · exact hst
  · intro u b e h
    rcases hexBytes_ok_or_unchanged u b with hok | hst
    · rw [hok] at h
      exact Outcome.noConfusion h
    · exact hst
  · intro o fs e h
    rcases guid_ok_or_unchanged o fs with hok | hst
    · rw [hok] at h
      exact Outcome.noConfusion h
    · exact hst

/-- Witness for C9 at one concrete failing input per decoder. -/
theorem c9_decode_atomic_witness :
    (U64UnmarshalJSON 5 ['x']).state = 5 ∧
    (HexBytesUnmarshalJSON [3] ['"', 'z', 'z', '"']).state = [3] ∧
    (GUIDUnmarshalJSON ⟨9, some ⟨['q']⟩⟩
      [("creation_number", ['"', 'x', '"'])]).state = ⟨9, some ⟨['q']⟩⟩ :=
  ⟨c9_decode_atomic.1 5 ['x'] .malformedNumber (by decide),
   c9_decode_atomic.2.1 [3] ['"', 'z', 'z', '"'] .malformedBytes (by decide),
   c9_decode_atomic.2.2 ⟨9, some ⟨['q']⟩⟩ [("creation_number", ['"', 'x', '"'])]
     .malformedNumber (by decide)⟩

/-- C10: implicit precondition of U64.UnmarshalJSON: the empty input slice
makes the unchecked indexing of the first byte panic rather than return a
decode error, while every non-empty input runs to a normal return of a
value or an error. -/
theorem c10_u64_emptyInput :
    (∀ u, (U64UnmarshalJSON u []).outcome = .panicked) ∧
    (∀ u b, b ≠ [] → (U64UnmarshalJSON u b).outcome ≠ .panicked) := by
  constructor
  · intro u
    rfl
  · intro u b hb
    match b, hb with
    | c0 :: rest, _ =>
      simp only [U64UnmarshalJSON]
      split
      · exact fun hx => Outcome.noConfusion hx
      · split
        · exact fun hx => Outcome.noConfusion hx
        · exact fun hx => Outcome.noConfusion hx

/-- Witness for C10: the empty input panics, the one-digit input does not. -/
theorem c10_u64_emptyInput_witness :
    (U64UnmarshalJSON 0 []).outcome = .panicked ∧
    (U64UnmarshalJSON 0 ['7']).outcome ≠ .panicked :=
  ⟨c10_u64_emptyInput.1 0, c10_u64_emptyInput.2 0 ['7'] (by decide)⟩

end AptosApiUtil
